import Mathlib
/-!
Shallow embedding of the Covid-19 dashboard core logic
(`ui/app.py`: `load_data`, `create_sample_data`, `predict_cases`,
`year_stats` / `quarter_stats`) and proofs about the spec's claims.

Modelling conventions:
* A pandas cell is the raw CSV string.  The pandas coercions
  `pd.to_numeric(errors='coerce')` and `pd.to_datetime(errors='coerce')`
  are modelled as oracle parameters `pn : String → Option ℚ`
  (numeric parse; `none` = NaN) and `pd` `: String → Option ℤ`
  (date parse to an epoch day number; `none` = NaT).
* Float arithmetic is modelled as exact rational arithmetic; the value of
  `np.sin(i * 0.1)` is modelled as a parameter `s : ℕ → ℚ` about which we
  assume only what holds of the float sine: `s 0 = 0` and `|s i| ≤ 1`.
* `astype(int)` / Python `int()` truncate toward zero: `truncQ`.
* Calendar dates are epoch day numbers (`ℤ`); `daysFromCivil` converts a
  civil date to its day number (the standard days-from-civil algorithm).
-/
/-- Python `int()` / numpy `astype(int)`: truncation toward zero. -/
def truncQ (q : ℚ) : ℤ := if 0 ≤ q then ⌊q⌋ else ⌈q⌉
/-- One row of the canonical table built by `load_data` /
`create_sample_data`: columns `date`, `cases`, `deaths`, `recovered`. -/
structure CRecord where
  date : ℤ
  cases : ℤ
  deaths : ℤ
  recovered : ℤ
deriving DecidableEq, Repr
/-- One row of the frame returned by `predict_cases`. -/
structure PRecord where
  date : ℤ
  predicted_cases : ℤ
deriving DecidableEq, Repr
/-- A raw uploaded CSV table: header (column names, in order) and rows of
string cells aligned with the header. -/
structure RawTable where
  header : List String
  rows : List (List String)
deriving Repr
/-- Insert into a strictly-sorted list, skipping duplicates. -/
def sortedInsert {α : Type} [LinearOrder α] (x : α) : List α → List α
  | [] => [x]
  | y :: ys =>
    if x < y then x :: y :: ys
    else if x = y then y :: ys
    else y :: sortedInsert x ys
/-- Distinct keys in ascending order — the key order a pandas
`groupby(sort=True)` produces. -/
def sortedDedup {α : Type} [LinearOrder α] (l : List α) : List α :=
  l.foldr sortedInsert []
/-! ### De-cumulation step (`load_data`, lines 23-24)

`df['cases'].diff().fillna(df['cases'].iloc[0]).clip(lower=0)`, applied when
`len(df) > 1 and df['cases'].iloc[-1] > df['cases'].iloc[0] * 10`. -/
/-- Embedding of `series.diff().fillna(series.iloc[0])`: day-over-day
differences with the first entry kept as the raw first value. -/
def diffsOf : List ℚ → List ℚ
  | [] => []
  | x :: xs => x :: List.zipWith (· - ·) xs (x :: xs)
/-- The guard of the de-cumulation heuristic:
`len(df) > 1 and df['cases'].iloc[-1] > df['cases'].iloc[0] * 10`. -/
def decumCond (v : List ℚ) : Prop :=
  1 < v.length ∧ (v.head?.getD 0) * 10 < v.getLast?.getD 0
instance (v : List ℚ) : Decidable (decumCond v) :=
  inferInstanceAs (Decidable (_ ∧ _))
/-- Lines 23-24 of `load_data`: heuristic conversion of a cumulative series
into clipped daily deltas. -/
def decumulate (v : List ℚ) : List ℚ :=
  if decumCond v then (diffsOf v).map (fun q => max q 0) else v
/-- Running total (`cumsum`) helper, carrying the accumulator. -/
def cumsumFrom (a : ℚ) : List ℚ → List ℚ
  | [] => []
  | d :: ds => (a + d) :: cumsumFrom (a + d) ds
/-- Running total of a list (`Series.cumsum()`). -/
def cumsum (l : List ℚ) : List ℚ := cumsumFrom 0 l
/-! ### The `load_data` normalizer (`ui/app.py`, lines 8-64) -/
/-- Python `'/' in col` - structural version of `String.contains` (character
membership). -/
def strContains (s : String) (ch : Char) : Bool := s.data.any (· = ch)
/-- Python `any(c.isdigit() for c in col)`. -/
def strHasDigit (s : String) : Bool := s.data.any Char.isDigit
/-- Python `str.lower()`. -/
def pyLower (s : String) : String := ⟨s.data.map Char.toLower⟩
/-- Python `str.strip()`: drop leading and trailing whitespace. -/
def pyStrip (s : String) : String :=
  ⟨((s.data.dropWhile Char.isWhitespace).reverse.dropWhile
    Char.isWhitespace).reverse⟩
/-- Value of column `name` in `row` (cells aligned with `hdr`; first matching
column, empty cell if the column is absent). -/
def getCell (hdr : List String) (name : String) (row : List String) : String :=
  (((hdr.zip row).find? (fun p => p.1 = name)).map Prod.snd).getD ""
/-- All values of column `name`, one per row. -/
def colValues (t : RawTable) (name : String) : List String :=
  t.rows.map (getCell t.header name)
/-- Line 11: a column name counts as date-like when it contains a `/` or `-`
and contains a digit. -/
def isDatePatternCol (c : String) : Bool :=
  (strContains c '/' || strContains c '-') && strHasDigit c
/-- Line 11: `date_pattern_cols`. -/
def datePatternCols (hdr : List String) : List String :=
  hdr.filter isDatePatternCol
/-- Line 13: the wide-format branch is taken when some column name is
date-like and no lower-cased column name is literally `date`. -/
def widePathCond (t : RawTable) : Prop :=
  datePatternCols t.header ≠ [] ∧ "date" ∉ t.header.map pyLower
instance (t : RawTable) : Decidable (widePathCond t) :=
  inferInstanceAs (Decidable (_ ∧ _))
/-- Failure modes of `load_data` (each a `raise ValueError` in the source). -/
inductive LoadError
  | missingColumns (missing : List String)
  | dateParseFailure
  | casesParseFailure
  | meltConflict
  | noValidRows
deriving DecidableEq, Repr
/-- Lines 15-18: `melt` stacks every date-like column over all rows
(column-major), coerces the value to numeric with NaN→0, and parses the
column header as the date.  Each melted row is (parsed date, cases value). -/
def meltedPairs (pdato : String → Option ℤ) (pnum : String → Option ℚ)
    (t : RawTable) : List (Option ℤ × ℚ) :=
  (datePatternCols t.header).flatMap fun c =>
    (colValues t c).map fun v => (pdato c, (pnum v).getD 0)
/-- Lines 19-21: `groupby('date').agg({'cases': 'sum'})` followed by
`dropna(subset=['date'])` and `sort_values('date')`: distinct parsed dates in
ascending order, each with the sum of its melted cases values (rows whose
date failed to parse are dropped with the NaT group key). -/
def wideGroups (pdato : String → Option ℤ) (pnum : String → Option ℚ)
    (t : RawTable) : List (ℤ × ℚ) :=
  (sortedDedup ((meltedPairs pdato pnum t).filterMap Prod.fst)).map fun d =>
    (d, (((meltedPairs pdato pnum t).filter fun p => p.1 = some d).map
      Prod.snd).sum)
/-- Lines 13-27 of `load_data`: the wide-format branch (before the final
`astype(int)` casts, which are applied per record here), with
`deaths = 0` and `recovered = 0` (lines 26-27). -/
def wideTable (pdato : String → Option ℤ) (pnum : String → Option ℚ)
    (t : RawTable) : List CRecord :=
  let g := wideGroups pdato pnum t
  List.zipWith (fun (p : ℤ × ℚ) c => ⟨p.1, truncQ c, 0, 0⟩) g
    (decumulate (g.map Prod.snd))
/-- Line 30: `df.columns.str.lower().str.strip()`. -/
def normHeader (t : RawTable) : List String :=
  t.header.map fun c => pyStrip (pyLower c)
/-- Embedding of `load_data` (lines 8-64): classify wide/long format,
clean, and return the canonical table or the raised error.
`pandas.melt` refuses a frame that already holds a column equal to
`value_name`/`var_name`; that corner is the `meltConflict` error. -/
def load_data (pdato : String → Option ℤ) (pnum : String → Option ℚ)
    (t : RawTable) : Except LoadError (List CRecord) :=
  if widePathCond t then
    if "cases" ∈ t.header ∨ "date_str" ∈ t.header then .error .meltConflict
    else
      let out := wideTable pdato pnum t
      if out.length = 0 then .error .noValidRows else .ok out
  else
    let hdr := normHeader t
    let missing := ["date", "cases"].filter fun c => ¬ c ∈ hdr
    if missing ≠ [] then .error (.missingColumns missing)
    else if (t.rows.map fun r => pdato (getCell hdr "date" r)).all
        (fun d => d.isNone) then .error .dateParseFailure
    else if (t.rows.map fun r => pnum (getCell hdr "cases" r)).all
        (fun c => c.isNone) then .error .casesParseFailure
    else
      let rows := t.rows.filterMap fun r =>
        match pdato (getCell hdr "date" r), pnum (getCell hdr "cases" r) with
        | some d, some c =>
          some { date := d
                 cases := truncQ c
                 deaths := if "deaths" ∈ hdr then
                     truncQ ((pnum (getCell hdr "deaths" r)).getD 0) else 0
                 recovered := if "recovered" ∈ hdr then
                     truncQ ((pnum (getCell hdr "recovered" r)).getD 0) else 0 }
        | _, _ => none
      if rows.length = 0 then .error .noValidRows else .ok rows
/-! ### The forecaster `predict_cases` (`ui/app.py`, lines 124-139) -/
/-- Properties assumed of the float values `np.sin(i * 0.1)`:
sine of zero is zero and sine is bounded by one in absolute value. -/
def SinLike (s : ℕ → ℚ) : Prop := s 0 = 0 ∧ ∀ i, |s i| ≤ 1
/-- Maximum of a list of integers (`Series.max()`); meaningful only for
nonempty lists, which every use below guarantees. -/
def listMaxD : List ℤ → ℤ
  | [] => 0
  | x :: xs => xs.foldl max x
/-- Embedding of `predict_cases(df, days)` (lines 124-139): `None` for fewer
than 7 rows; otherwise `int(last_week_avg * (1 + 0.05 * np.sin(i * 0.1)))`
for each `i`, dated consecutively from the day after `df['date'].max()`. -/
def predict_cases (df : List CRecord) (days : ℕ) (s : ℕ → ℚ) :
    Option (List PRecord) :=
  if df.length < 7 then none
  else
    let last_week_avg : ℚ :=
      ((df.drop (df.length - 7)).map fun r => (r.cases : ℚ)).sum / 7
    some ((List.range days).map fun (i : ℕ) =>
      { date := listMaxD (df.map (·.date)) + 1 + (i : ℤ)
        predicted_cases := truncQ (last_week_avg * (1 + (5 / 100) * s i)) })
/-! ### Aggregators `year_stats` / `quarter_stats` (lines 200-225)

`df['date'].dt.year` and `.dt.quarter` are calendar projections of the date;
they enter as oracle parameters `yearOf` / `quarterOf`. -/
/-- One output row of `groupby(key)['cases'].agg(['sum','mean','max'])`. -/
structure GroupStat (K : Type) where
  key : K
  total : ℤ
  avg : ℚ
  peak : ℤ
/-- Embedding of `df.groupby(k)['cases'].agg(['sum','mean','max'])`: one row
per distinct key in ascending key order. -/
def groupAgg {K : Type} [LinearOrder K] [DecidableEq K] (key : CRecord → K)
    (df : List CRecord) : List (GroupStat K) :=
  (sortedDedup (df.map key)).map fun k =>
    let g := (df.filter fun r => key r = k).map (·.cases)
    { key := k
      total := g.sum
      avg := (g.sum : ℚ) / g.length
      peak := listMaxD g }
/-- Lines 200, 205-206: year-wise stats, grouped by `df['date'].dt.year`. -/
def year_stats (yearOf : ℤ → ℤ) (df : List CRecord) : List (GroupStat ℤ) :=
  groupAgg (fun r => yearOf r.date) df
/-- Line 202: the composite key `f"{year} Q{quarter}"`. -/
def year_quarter_label (yearOf quarterOf : ℤ → ℤ) (d : ℤ) : String :=
  toString (yearOf d) ++ " Q" ++ toString (quarterOf d)
/-- Lines 202, 223-225: quarter-wise stats grouped by the composite string
key, re-sorted lexicographically (already the `groupAgg` key order). -/
def quarter_stats (yearOf quarterOf : ℤ → ℤ) (df : List CRecord) :
    List (GroupStat String) :=
  groupAgg (fun r => year_quarter_label yearOf quarterOf r.date) df
/-! ### The live fetcher `create_sample_data` (lines 66-122) -/
/-- Decoded JSON body of the historical-series endpoint: three
date-string-keyed cumulative dictionaries (any of which may be empty). -/
structure LiveData where
  cases : List (String × ℤ)
  deaths : List (String × ℤ)
  recovered : List (String × ℤ)
/-- Outcome of `requests.get(...)` plus decoding: either a decoded body or
any network/timeout/HTTP/decode failure. -/
inductive FetchOutcome
  | success (data : LiveData)
  | failure
/-- One merged row of the live frame before de-cumulation. -/
structure LiveRow where
  date : ℤ
  c : ℤ
  d : ℤ
  r : ℤ
/-- Strict `pd.to_datetime` over a dictionary's keys: `none` when any date
string fails to parse (the call raises). -/
def parseDict (pdato : String → Option ℤ) (l : List (String × ℤ)) :
    Option (List (ℤ × ℤ)) :=
  l.mapM fun p => (pdato p.1).map fun d => (d, p.2)
/-- Insertion step of a stable sort by date. -/
def insByDate (x : LiveRow) : List LiveRow → List LiveRow
  | [] => [x]
  | y :: ys => if y.date ≤ x.date then y :: insByDate x ys else x :: y :: ys
/-- Stable ascending sort by date (`sort_values('date')`). -/
def sortByDate (l : List LiveRow) : List LiveRow := l.foldr insByDate []
/-- Integer version of `diff().fillna(iloc[0])` (the live series are
integer-valued). -/
def diffsZ : List ℤ → List ℤ
  | [] => []
  | x :: xs => x :: List.zipWith (· - ·) xs (x :: xs)
/-- Embedding of the `try:` block of `create_sample_data` (lines 67-108):
build the merged frame from the decoded body, sort by date, and de-cumulate
all three series with negative deltas clipped to zero.  Errors are the
exceptions the block can raise internally: an unparseable date string
(`pd.to_datetime` raises) or an empty cases dictionary (`iloc[0]` raises). -/
def tryLive (pdato : String → Option ℤ) (data : LiveData) :
    Except Unit (List CRecord) :=
  match parseDict pdato data.cases with
  | none => .error ()
  | some casesRows =>
    match (if data.deaths = [] then some [] else parseDict pdato data.deaths) with
    | none => .error ()
    | some deathRows =>
      match (if data.recovered = [] then some [] else
          parseDict pdato data.recovered) with
      | none => .error ()
      | some recRows =>
        let merged : List LiveRow := casesRows.map fun p =>
          { date := p.1
            c := p.2
            d := ((deathRows.find? fun q => q.1 = p.1).map Prod.snd).getD 0
            r := ((recRows.find? fun q => q.1 = p.1).map Prod.snd).getD 0 }
        let sorted := sortByDate merged
        if sorted.isEmpty then .error ()
        else
          let cs := (diffsZ (sorted.map (·.c))).map fun x => max x 0
          let ds := (diffsZ (sorted.map (·.d))).map fun x => max x 0
          let rs := (diffsZ (sorted.map (·.r))).map fun x => max x 0
          .ok (List.zipWith (fun (p : LiveRow × ℤ) (q : ℤ × ℤ) =>
              ⟨p.1.date, p.2, q.1, q.2⟩)
            (sorted.zip cs) (ds.zip rs))
/-- Day number of a civil calendar date (days since 1970-01-01), the
standard days-from-civil algorithm. -/
def daysFromCivil (y m d : ℤ) : ℤ :=
  let y2 := if m ≤ 2 then y - 1 else y
  let era := (if 0 ≤ y2 then y2 else y2 - 399) / 400
  let yoe := y2 - era * 400
  let doy := (153 * (m + (if 2 < m then -3 else 9)) + 2) / 5 + d - 1
  let doe := yoe * 365 + yoe / 4 - yoe / 100 + doy
  era * 146097 + doe - 719468
/-- Length of `pd.date_range(start='2020-01-01', end='2023-12-31', freq='D')`. -/
def fallbackLen : ℕ := (daysFromCivil 2023 12 31 - daysFromCivil 2020 1 1 + 1).toNat
/-- Embedding of the fallback branch (lines 111-121): one synthetic record
per day of the fixed range.  `r`, `nd`, `nr` are the values drawn by the
three `np.random.randint` calls; `s i` is the float `np.sin(i * 0.1)`. -/
def create_fallback (r nd nr : ℕ → ℤ) (s : ℕ → ℚ) : List CRecord :=
  (List.range fallbackLen).map fun (i : ℕ) =>
    let c : ℚ := (r i : ℚ) + s i * 200
    { date := daysFromCivil 2020 1 1 + (i : ℤ)
      cases := truncQ c
      deaths := truncQ (c * (2 / 100) + nd i)
      recovered := truncQ (c * (80 / 100) + nr i) }
/-- Ranges of the three `np.random.randint` draws of the fallback branch:
`randint(100, 1000)`, `randint(0, 10)`, `randint(0, 50)`. -/
def FallbackDraws (r nd nr : ℕ → ℤ) : Prop :=
  (∀ i, 100 ≤ r i ∧ r i < 1000) ∧ (∀ i, 0 ≤ nd i ∧ nd i < 10) ∧
    (∀ i, 0 ≤ nr i ∧ nr i < 50)
/-- Embedding of `create_sample_data` (lines 66-122): the live-derived table
when the request and the whole `try:` block succeed, the synthetic fallback
otherwise. -/
def create_sample_data (pdato : String → Option ℤ) (outcome : FetchOutcome)
    (r nd nr : ℕ → ℤ) (s : ℕ → ℚ) : List CRecord :=
  match outcome with
  | .failure => create_fallback r nd nr s
  | .success data =>
    match tryLive pdato data with
    | .ok t => t
    | .error _ => create_fallback r nd nr s

/-! ### Statements taken from the spec's words (for refinement claims) -/

/-- Modelled from the spec: "the last per-date value is more than 10 times
the first" — the spec's wording of the de-cumulation trigger, without the
code's extra `len(df) > 1` conjunct. -/
def specTrigger (v : List ℚ) : Prop :=
  10 * v.head?.getD 0 < v.getLast?.getD 0

instance (v : List ℚ) : Decidable (specTrigger v) :=
  inferInstanceAs (Decidable (_ < _))

/-- Data-model invariants claimed by the spec: date values unique and
ascending; cases, deaths and recovered non-negative. -/
def TableInvariant (l : List CRecord) : Prop :=
  List.Chain' (fun a b => a.date < b.date) l ∧
    ∀ r ∈ l, 0 ≤ r.cases ∧ 0 ≤ r.deaths ∧ 0 ≤ r.recovered

instance (l : List CRecord) : Decidable (TableInvariant l) :=
  inferInstanceAs (Decidable (_ ∧ _))

/-- Modelled from the spec: the claimed per-date value of the wide path —
the sum, over the date-like columns whose header parses to `d` and over all
input rows, of the coerced cell values (non-numeric → 0). -/
def wideDateSum (pdato : String → Option ℤ) (pnum : String → Option ℚ)
    (t : RawTable) (d : ℤ) : ℚ :=
  (((datePatternCols t.header).filter fun c => pdato c = some d).map fun c =>
    ((colValues t c).map fun v => (pnum v).getD 0).sum).sum

/-- Modelled from the spec: "baseline = mean(cases over the last 7 records)". -/
def baselineSpec (df : List CRecord) : ℚ :=
  ((df.drop (df.length - 7)).map fun r => (r.cases : ℚ)).sum / 7

/-- Modelled from the spec: "predicted = round(baseline * (1 + 0.05 *
sin(i * 0.1)))" — the spec rounds where the code truncates. -/
def predictedSpec (df : List CRecord) (s : ℕ → ℚ) (i : ℕ) : ℤ :=
  round (baselineSpec df * (1 + (5 / 100) * s i))

/-! ### Concrete inputs used by witnesses and counterexamples -/

/-- Date-parse oracle for the concrete wide-format tables. -/
def pdW : String → Option ℤ := fun c =>
  if c = "1-1" then some 1 else if c = "1-2" then some 2 else none

/-- Numeric-parse oracle mapping the numerals of the concrete tables (all
non-negative). -/
def pnW : String → Option ℚ := fun v =>
  if v = "1" then some 1 else if v = "100" then some 100 else
    if v = "3" then some 3 else none

/-- A concrete wide-format table: one row, two date-like columns holding a
cumulative-looking series (1, 100). -/
def tW : RawTable := ⟨["1-1", "1-2"], [["1", "100"]]⟩

/-- A concrete wide-format table whose series (3, 1) does not look
cumulative. -/
def tW2 : RawTable := ⟨["1-1", "1-2"], [["3", "1"]]⟩

/-- Date-parse oracle for the long-format table `tL` ("B" parses to a later
day than "A"). -/
def pdL : String → Option ℤ := fun c =>
  if c = "B" then some 2 else if c = "A" then some 1 else none

/-- Numeric-parse oracle for `tL`, including a negative cases value. -/
def pnL : String → Option ℚ := fun v =>
  if v = "-5" then some (-5) else if v = "3" then some 3 else none

/-- A concrete long-format table whose rows arrive date-descending and carry
a negative cases value. -/
def tL : RawTable := ⟨["date", "cases"], [["B", "-5"], ["A", "3"]]⟩

/-- A concrete long-format table lacking both required columns. -/
def tMissing : RawTable := ⟨["foo"], [["1"]]⟩

/-- A concrete 7-row canonical table with cases summing to 11. -/
def dfC : List CRecord :=
  [⟨0, 1, 0, 0⟩, ⟨1, 1, 0, 0⟩, ⟨2, 1, 0, 0⟩, ⟨3, 1, 0, 0⟩,
   ⟨4, 1, 0, 0⟩, ⟨5, 1, 0, 0⟩, ⟨6, 5, 0, 0⟩]

/-- The all-zero sine stand-in (`sin 0 = 0`, bounded by 1). -/
def sZero : ℕ → ℚ := fun _ => 0

/-- A sine stand-in dipping to -0.9999 at index 47, as the float value
`np.sin(4.7) ≈ -0.99992` does. -/
def sDip : ℕ → ℚ := fun i => if i = 47 then -9999 / 10000 else 0

/-- Constant draw at the low end of `randint(100, 1000)`. -/
def rLow : ℕ → ℤ := fun _ => 100

/-- Constant zero noise draw. -/
def nZero : ℕ → ℤ := fun _ => 0

/-! ### Helper lemmas -/

theorem mem_sortedInsert {α : Type} [LinearOrder α] (x a : α) :
    ∀ l : List α, a ∈ sortedInsert x l ↔ a = x ∨ a ∈ l := by
  intro l
  induction l with
  | nil => simp [sortedInsert]
  | cons y ys ih =>
    simp only [sortedInsert]
    by_cases h1 : x < y
    · rw [if_pos h1]
      simp only [List.mem_cons]
    · rw [if_neg h1]
      by_cases h2 : x = y
      · rw [if_pos h2]
        subst h2
        simp only [List.mem_cons]
        tauto
      · rw [if_neg h2]
        simp only [List.mem_cons, ih]
        tauto

theorem head?_sortedInsert {α : Type} [LinearOrder α] (x : α) (l : List α) :
    (sortedInsert x l).head? = some x ∨ (sortedInsert x l).head? = l.head? := by
  cases l with
  | nil => left; rfl
  | cons y ys =>
    simp only [sortedInsert]
    by_cases h1 : x < y
    · rw [if_pos h1]; left; rfl
    · rw [if_neg h1]
      by_cases h2 : x = y
      · rw [if_pos h2]; right; rfl
      · rw [if_neg h2]; right; rfl

theorem chain'_sortedInsert {α : Type} [LinearOrder α] (x : α) :
    ∀ l : List α, List.Chain' (· < ·) l →
      List.Chain' (· < ·) (sortedInsert x l) := by
  intro l
  induction l with
  | nil => intro _; simp [sortedInsert]
  | cons y ys ih =>
    intro hc
    rw [List.chain'_cons'] at hc
    obtain ⟨hy, hys⟩ := hc
    simp only [sortedInsert]
    by_cases h1 : x < y
    · rw [if_pos h1]
      rw [List.chain'_cons]
      exact ⟨h1, List.chain'_cons'.mpr ⟨hy, hys⟩⟩
    · rw [if_neg h1]
      by_cases h2 : x = y
      · rw [if_pos h2]
        exact List.chain'_cons'.mpr ⟨hy, hys⟩
      · rw [if_neg h2]
        have hyx : y < x := lt_of_le_of_ne (le_of_not_lt h1) fun h => h2 h.symm
        rw [List.chain'_cons']
        constructor
        · intro z hz
          rcases head?_sortedInsert x ys with h | h
          · rw [h] at hz
            rw [Option.mem_some_iff] at hz
            subst hz
            exact hyx
          · rw [h] at hz
            exact hy z hz
        · exact ih hys

theorem chain'_sortedDedup {α : Type} [LinearOrder α] (l : List α) :
    List.Chain' (· < ·) (sortedDedup l) := by
  induction l with
  | nil => simp [sortedDedup]
  | cons x xs ih => exact chain'_sortedInsert x _ ih

theorem mem_sortedDedup {α : Type} [LinearOrder α] (a : α) (l : List α) :
    a ∈ sortedDedup l ↔ a ∈ l := by
  induction l with
  | nil => simp [sortedDedup]
  | cons x xs ih =>
    simp only [sortedDedup, List.foldr_cons]
    rw [mem_sortedInsert]
    simp only [sortedDedup] at ih
    rw [ih, List.mem_cons]

theorem nodup_sortedDedup {α : Type} [LinearOrder α] (l : List α) :
    (sortedDedup l).Nodup := by
  have hc := chain'_sortedDedup l
  have hp : List.Pairwise (· < ·) (sortedDedup l) :=
    (List.chain'_iff_pairwise).mp hc
  exact hp.imp ne_of_lt

theorem cumsumFrom_zipWith_sub (v : List ℚ) :
    ∀ prev : ℚ, cumsumFrom prev (List.zipWith (· - ·) v (prev :: v)) = v := by
  induction v with
  | nil => intro prev; rfl
  | cons y ys ih =>
    intro prev
    simp only [List.zipWith, cumsumFrom, add_sub_cancel]
    rw [ih y]

theorem cumsum_diffsOf (v : List ℚ) : cumsum (diffsOf v) = v := by
  cases v with
  | nil => rfl
  | cons x xs =>
    simp only [diffsOf, cumsum, cumsumFrom, zero_add]
    rw [cumsumFrom_zipWith_sub xs x]

theorem diffsOf_length (v : List ℚ) : (diffsOf v).length = v.length := by
  cases v with
  | nil => rfl
  | cons x xs =>
    simp only [diffsOf, List.length_cons, List.length_zipWith]
    rw [Nat.min_eq_left (Nat.le_succ _)]

theorem decumulate_length (v : List ℚ) : (decumulate v).length = v.length := by
  unfold decumulate
  split
  · rw [List.length_map, diffsOf_length]
  · rfl

theorem zipWith_sub_nonneg (v : List ℚ) :
    ∀ prev : ℚ, List.Chain' (· ≤ ·) (prev :: v) →
      ∀ d ∈ List.zipWith (· - ·) v (prev :: v), 0 ≤ d := by
  induction v with
  | nil => intro prev _ d hd; simp at hd
  | cons y ys ih =>
    intro prev hc d hd
    rw [List.chain'_cons] at hc
    simp only [List.zipWith, List.mem_cons] at hd
    rcases hd with h | h
    · rw [h]; simp [hc.1]
    · exact ih y hc.2 d h

theorem clip_eq_self (l : List ℚ) (h : ∀ d ∈ l, 0 ≤ d) :
    l.map (fun q => max q 0) = l := by
  induction l with
  | nil => rfl
  | cons x xs ih =>
    simp only [List.map_cons, List.cons.injEq]
    constructor
    · exact max_eq_left (h x (by simp))
    · exact ih fun d hd => h d (List.mem_cons_of_mem _ hd)

theorem le_foldl_max (xs : List ℤ) : ∀ b : ℤ, b ≤ xs.foldl max b := by
  induction xs with
  | nil => intro b; exact le_refl b
  | cons y ys ih =>
    intro b
    simp only [List.foldl_cons]
    exact le_trans (le_max_left b y) (ih (max b y))

theorem mem_le_foldl_max (xs : List ℤ) :
    ∀ b a : ℤ, a ∈ xs → a ≤ xs.foldl max b := by
  induction xs with
  | nil => intro b a ha; simp at ha
  | cons y ys ih =>
    intro b a ha
    rw [List.mem_cons] at ha
    simp only [List.foldl_cons]
    rcases ha with h | h
    · subst h
      exact le_trans (le_max_right b a) (le_foldl_max ys _)
    · exact ih (max b y) a h

theorem le_listMaxD (l : List ℤ) (a : ℤ) (ha : a ∈ l) : a ≤ listMaxD l := by
  cases l with
  | nil => simp at ha
  | cons x xs =>
    rw [List.mem_cons] at ha
    simp only [listMaxD]
    rcases ha with h | h
    · subst h; exact le_foldl_max xs a
    · exact mem_le_foldl_max xs x a h

/-! ### Claim C5 — the de-cumulation heuristic -/

/-- C5 is false as stated: for the one-row series (-1) the spec's trigger
condition (last more than 10 times the first) holds but de-cumulation is not
applied (the code also requires more than one row); and for the
monotonically increasing series (-10, 0) the trigger fires but the
cumulative sum of the clipped deltas gives (0, 10), not the original
series. -/
theorem C5_counterexample :
    (specTrigger [(-1 : ℚ)] ∧ ¬ decumCond [(-1 : ℚ)]) ∧
      (List.Chain' (· ≤ ·) [(-10 : ℚ), 0] ∧ decumCond [(-10 : ℚ), 0] ∧
        cumsum (decumulate [(-10 : ℚ), 0]) ≠ [(-10 : ℚ), 0]) := by
  refine ⟨⟨?_, ?_⟩, ?_, ?_, ?_⟩
  · norm_num [specTrigger]
  · norm_num [decumCond]
  · norm_num
  · norm_num [decumCond]
  · norm_num [decumulate, decumCond, diffsOf, cumsum, cumsumFrom]

/-- C5 (amended): de-cumulation is applied exactly when the table has more
than one row and the last per-date value is more than 10 times the first;
for every monotonically non-decreasing series of non-negative values
satisfying the trigger, the resulting daily deltas are all non-negative,
their cumulative sum reconstructs the original series, and the first day's
delta is its own raw value. -/
theorem C5_decumulation (v : List ℚ) (hmono : List.Chain' (· ≤ ·) v)
    (hnn : ∀ x ∈ v, 0 ≤ x) :
    (decumCond v ↔ 1 < v.length ∧ specTrigger v) ∧
      (decumCond v →
        (∀ d ∈ decumulate v, 0 ≤ d) ∧ cumsum (decumulate v) = v ∧
          (decumulate v).head? = v.head?) := by
  constructor
  · unfold decumCond specTrigger
    constructor
    · rintro ⟨h1, h2⟩
      exact ⟨h1, by linarith⟩
    · rintro ⟨h1, h2⟩
      exact ⟨h1, by linarith⟩
  · intro ht
    have hdnn : ∀ d ∈ diffsOf v, 0 ≤ d := by
      cases v with
      | nil => intro d hd; simp [diffsOf] at hd
      | cons x xs =>
        intro d hd
        simp only [diffsOf, List.mem_cons] at hd
        rcases hd with h | h
        · rw [h]
          exact hnn x (by simp)
        · exact zipWith_sub_nonneg xs x hmono d h
    have hdec : decumulate v = diffsOf v := by
      unfold decumulate
      rw [if_pos ht]
      exact clip_eq_self _ hdnn
    refine ⟨?_, ?_, ?_⟩
    · intro d hd
      rw [hdec] at hd
      exact hdnn d hd
    · rw [hdec]
      exact cumsum_diffsOf v
    · rw [hdec]
      cases v with
      | nil => rfl
      | cons x xs => simp [diffsOf]

/-- Witness for C5 at the concrete increasing series (1, 100). -/
theorem C5_decumulation_witness :
    (decumCond [(1 : ℚ), 100] ↔
        1 < ([(1 : ℚ), 100] : List ℚ).length ∧ specTrigger [(1 : ℚ), 100]) ∧
      (decumCond [(1 : ℚ), 100] →
        (∀ d ∈ decumulate [(1 : ℚ), 100], 0 ≤ d) ∧
          cumsum (decumulate [(1 : ℚ), 100]) = [(1 : ℚ), 100] ∧
          (decumulate [(1 : ℚ), 100]).head? = ([(1 : ℚ), 100] : List ℚ).head?) :=
  C5_decumulation [1, 100] (by norm_num) (by norm_num)

/-! ### Claim C4 — wide-format per-date sums -/

theorem sum_filter_flatMap {α β γ : Type} [AddCommMonoid γ] (cols : List α)
    (f : α → List β) (p : β → Bool) (m : β → γ) :
    (((cols.flatMap f).filter p).map m).sum =
      (cols.map fun c => (((f c).filter p).map m).sum).sum := by
  induction cols with
  | nil => rfl
  | cons c cs ih =>
    simp only [List.flatMap_cons, List.filter_append, List.map_append,
      List.sum_append, List.map_cons, List.sum_cons, ih]

theorem filter_map_const_key (vs : List String) (k : Option ℤ)
    (g : String → ℚ) (d : ℤ) :
    ((vs.map fun v => (k, g v)).filter fun q => q.1 = some d) =
      if k = some d then vs.map fun v => (k, g v) else [] := by
  induction vs with
  | nil => simp
  | cons v vs ih =>
    simp only [List.map_cons, List.filter_cons]
    by_cases h : k = some d
    · simp [h, ih]
    · simp [h, ih]

theorem sum_melted_by_col (pdato : String → Option ℤ)
    (pnum : String → Option ℚ) (t : RawTable) (d : ℤ) (cols : List String) :
    (cols.map fun c => ((((colValues t c).map fun v =>
        (pdato c, (pnum v).getD 0)).filter fun q => q.1 = some d).map
        Prod.snd).sum).sum =
      ((cols.filter fun c => pdato c = some d).map fun c =>
        ((colValues t c).map fun v => (pnum v).getD 0).sum).sum := by
  induction cols with
  | nil => rfl
  | cons c cs ih =>
    simp only [List.map_cons, List.sum_cons, List.filter_cons]
    rw [filter_map_const_key]
    by_cases h : pdato c = some d
    · simp only [if_pos h, h, List.map_map, ih]
      simp [Function.comp_def]
    · simp only [if_neg h, ih]
      simp [h]

theorem wideGroups_snd_eq (pdato : String → Option ℤ)
    (pnum : String → Option ℚ) (t : RawTable) (p : ℤ × ℚ)
    (hp : p ∈ wideGroups pdato pnum t) :
    p.2 = wideDateSum pdato pnum t p.1 := by
  unfold wideGroups at hp
  obtain ⟨d, _, rfl⟩ := List.mem_map.mp hp
  show (((meltedPairs pdato pnum t).filter fun q => q.1 = some d).map
      Prod.snd).sum = wideDateSum pdato pnum t d
  unfold meltedPairs wideDateSum
  rw [sum_filter_flatMap]
  exact sum_melted_by_col pdato pnum t d (datePatternCols t.header)

theorem zipWith_map_snd {γ : Type} (g : List (ℤ × ℚ))
    (f : (ℤ × ℚ) → ℚ → γ) :
    List.zipWith f g (g.map Prod.snd) = g.map fun p => f p p.2 := by
  induction g with
  | nil => rfl
  | cons p ps ih => simp [ih]

theorem load_data_wide_ok (pdato : String → Option ℤ)
    (pnum : String → Option ℚ) (t : RawTable) (out : List CRecord)
    (hw : widePathCond t) (hok : load_data pdato pnum t = .ok out) :
    out = wideTable pdato pnum t := by
  unfold load_data at hok
  rw [if_pos hw] at hok
  by_cases hc : "cases" ∈ t.header ∨ "date_str" ∈ t.header
  · rw [if_pos hc] at hok
    cases hok
  · rw [if_neg hc] at hok
    by_cases hlen : (wideTable pdato pnum t).length = 0
    · rw [if_pos hlen] at hok
      cases hok
    · rw [if_neg hlen] at hok
      injection hok with h
      exact h.symm

/-- C4 (amended): on the wide-format path, provided the de-cumulation
heuristic does not trigger, each output record's cases value is the integer
cast of the sum, over all input rows and all date-like columns whose header
parses to that record's date, of the coerced cell values (non-numeric
counted as 0). -/
theorem C4_wide_sum (pdato : String → Option ℤ) (pnum : String → Option ℚ)
    (t : RawTable) (out : List CRecord) (hw : widePathCond t)
    (hnotrig : ¬ decumCond ((wideGroups pdato pnum t).map Prod.snd))
    (hok : load_data pdato pnum t = .ok out) :
    ∀ rec ∈ out, rec.cases = truncQ (wideDateSum pdato pnum t rec.date) := by
  have hout := load_data_wide_ok pdato pnum t out hw hok
  subst hout
  intro rec hrec
  simp only [wideTable, decumulate, if_neg hnotrig] at hrec
  rw [zipWith_map_snd] at hrec
  obtain ⟨p, hp, rfl⟩ := List.mem_map.mp hrec
  show truncQ p.2 = truncQ (wideDateSum pdato pnum t p.1)
  rw [wideGroups_snd_eq pdato pnum t p hp]

/-- C4 is false as stated: the concrete wide table `tW` (one row, columns
for days 1 and 2 holding values 1 and 100) trips the de-cumulation
heuristic, so the record for day 2 carries the delta 99, not the per-date
column sum 100. -/
theorem C4_counterexample :
    widePathCond tW ∧
      load_data pdW pnW tW = .ok [⟨1, 1, 0, 0⟩, ⟨2, 99, 0, 0⟩] ∧
      wideDateSum pdW pnW tW 2 = 100 ∧
      (⟨2, 99, 0, 0⟩ : CRecord) ∈ [(⟨1, 1, 0, 0⟩ : CRecord), ⟨2, 99, 0, 0⟩] ∧
      (⟨2, 99, 0, 0⟩ : CRecord).cases ≠ truncQ (wideDateSum pdW pnW tW 2) := by
  refine ⟨by decide, ?_, ?_, by simp, ?_⟩
  · simp +decide only [load_data, widePathCond, wideTable, wideGroups,
      meltedPairs, colValues, datePatternCols, isDatePatternCol, strContains,
      strHasDigit, getCell, tW, pdW, pnW, pyLower,
      List.map, List.filter, List.filterMap, List.flatMap, List.zip,
      List.zipWith, List.find?, sortedDedup, List.foldr, sortedInsert,
      decumulate, decumCond, diffsOf, truncQ]
    norm_num
  · simp +decide only [wideDateSum, datePatternCols, isDatePatternCol,
      strContains, strHasDigit, colValues, getCell, tW, pdW, pnW,
      List.map, List.filter, List.zip, List.find?]
    norm_num
  · have h : wideDateSum pdW pnW tW 2 = 100 := by
      simp +decide only [wideDateSum, datePatternCols, isDatePatternCol,
        strContains, strHasDigit, colValues, getCell, tW, pdW, pnW,
        List.map, List.filter, List.zip, List.find?]
      norm_num
    rw [h]
    norm_num [truncQ]

/-- Witness for C4 at the concrete wide table `tW2` (values 3, 1; heuristic
not triggered). -/
theorem C4_wide_sum_witness :
    widePathCond tW2 ∧
      ¬ decumCond ((wideGroups pdW pnW tW2).map Prod.snd) ∧
      load_data pdW pnW tW2 = .ok [⟨1, 3, 0, 0⟩, ⟨2, 1, 0, 0⟩] ∧
      ∀ rec ∈ [(⟨1, 3, 0, 0⟩ : CRecord), ⟨2, 1, 0, 0⟩],
        rec.cases = truncQ (wideDateSum pdW pnW tW2 rec.date) := by
  have hg : wideGroups pdW pnW tW2 = [(1, 3), (2, 1)] := by
    simp +decide only [wideGroups, meltedPairs, colValues, datePatternCols,
      isDatePatternCol, strContains, strHasDigit, getCell, tW2, pdW, pnW,
      List.map, List.filter, List.filterMap, List.flatMap, List.zip,
      List.zipWith, List.find?, sortedDedup, List.foldr, sortedInsert]
    norm_num
  have h1 : widePathCond tW2 := by decide
  have h2 : ¬ decumCond ((wideGroups pdW pnW tW2).map Prod.snd) := by
    rw [hg]
    norm_num [decumCond]
  have h3 : load_data pdW pnW tW2 = .ok [⟨1, 3, 0, 0⟩, ⟨2, 1, 0, 0⟩] := by
    simp +decide only [load_data, widePathCond, wideTable, wideGroups,
      meltedPairs, colValues, datePatternCols, isDatePatternCol, strContains,
      strHasDigit, getCell, tW2, pdW, pnW, pyLower,
      List.map, List.filter, List.filterMap, List.flatMap, List.zip,
      List.zipWith, List.find?, sortedDedup, List.foldr, sortedInsert,
      decumulate, decumCond, diffsOf, truncQ]
    norm_num
  exact ⟨h1, h2, h3, C4_wide_sum pdW pnW tW2 _ h1 h2 h3⟩

/-! ### Claims C10, C1, C6 — normalizer outputs and errors -/

theorem mem_zipWith {α β γ : Type} (f : α → β → γ) :
    ∀ (l1 : List α) (l2 : List β) (c : γ), c ∈ List.zipWith f l1 l2 →
      ∃ a b, c = f a b ∧ a ∈ l1 ∧ b ∈ l2 := by
  intro l1
  induction l1 with
  | nil => intro l2 c h; simp at h
  | cons a as ih =>
    intro l2 c h
    cases l2 with
    | nil => simp at h
    | cons b bs =>
      rw [List.zipWith_cons_cons, List.mem_cons] at h
      rcases h with h | h
      · exact ⟨a, b, h, by simp, by simp⟩
      · obtain ⟨a2, b2, rfl, ha, hb⟩ := ih bs c h
        exact ⟨a2, b2, rfl, by simp [ha], by simp [hb]⟩

/-- C10: on the wide-format path, every record `load_data` produces has
`deaths = 0` and `recovered = 0`, whatever columns the input carried — any
death/recovery data ends up in the discarded grouping keys. -/
theorem C10_wide_zero (pdato : String → Option ℤ) (pnum : String → Option ℚ)
    (t : RawTable) (out : List CRecord) (hw : widePathCond t)
    (hok : load_data pdato pnum t = .ok out) :
    ∀ rec ∈ out, rec.deaths = 0 ∧ rec.recovered = 0 := by
  have hout := load_data_wide_ok pdato pnum t out hw hok
  subst hout
  intro rec hrec
  simp only [wideTable] at hrec
  obtain ⟨p, c, rfl, _, _⟩ := mem_zipWith _ _ _ rec hrec
  exact ⟨rfl, rfl⟩

/-- Witness for C10 at the concrete wide table `tW`, whose second column
value 100 is discarded into neither deaths nor recovered. -/
theorem C10_wide_zero_witness :
    widePathCond tW ∧
      load_data pdW pnW tW = .ok [⟨1, 1, 0, 0⟩, ⟨2, 99, 0, 0⟩] ∧
      ∀ rec ∈ [(⟨1, 1, 0, 0⟩ : CRecord), ⟨2, 99, 0, 0⟩],
        rec.deaths = 0 ∧ rec.recovered = 0 := by
  have h1 : widePathCond tW := by decide
  have h3 : load_data pdW pnW tW = .ok [⟨1, 1, 0, 0⟩, ⟨2, 99, 0, 0⟩] := by
    simp +decide only [load_data, widePathCond, wideTable, wideGroups,
      meltedPairs, colValues, datePatternCols, isDatePatternCol, strContains,
      strHasDigit, getCell, tW, pdW, pnW, pyLower,
      List.map, List.filter, List.filterMap, List.flatMap, List.zip,
      List.zipWith, List.find?, sortedDedup, List.foldr, sortedInsert,
      decumulate, decumCond, diffsOf, truncQ]
    norm_num
  exact ⟨h1, h3, C10_wide_zero pdW pnW tW _ h1 h3⟩

theorem truncQ_nonneg (q : ℚ) (h : 0 ≤ q) : 0 ≤ truncQ q := by
  unfold truncQ
  rw [if_pos h]
  exact Int.le_floor.mpr (by exact_mod_cast h)

theorem decumulate_nonneg (v : List ℚ) (h : ∀ x ∈ v, 0 ≤ x) :
    ∀ y ∈ decumulate v, 0 ≤ y := by
  intro y hy
  unfold decumulate at hy
  split at hy
  · obtain ⟨d, _, rfl⟩ := List.mem_map.mp hy
    exact le_max_right d 0
  · exact h y hy

theorem wideGroups_snd_nonneg (pdato : String → Option ℤ)
    (pnum : String → Option ℚ) (t : RawTable)
    (hnn : ∀ v, 0 ≤ (pnum v).getD 0) :
    ∀ x ∈ (wideGroups pdato pnum t).map Prod.snd, 0 ≤ x := by
  intro x hx
  obtain ⟨p, hp, rfl⟩ := List.mem_map.mp hx
  rw [wideGroups_snd_eq pdato pnum t p hp]
  unfold wideDateSum
  apply List.sum_nonneg
  intro a ha
  obtain ⟨c, _, rfl⟩ := List.mem_map.mp ha
  apply List.sum_nonneg
  intro b hb
  obtain ⟨v, _, rfl⟩ := List.mem_map.mp hb
  exact hnn v

theorem map_date_zipWith (g : List (ℤ × ℚ)) :
    ∀ cs : List ℚ, cs.length = g.length →
      (List.zipWith (fun (p : ℤ × ℚ) c =>
        (⟨p.1, truncQ c, 0, 0⟩ : CRecord)) g cs).map (·.date) =
        g.map Prod.fst := by
  induction g with
  | nil => intro cs _; simp
  | cons p ps ih =>
    intro cs hlen
    cases cs with
    | nil => simp at hlen
    | cons c cs2 =>
      simp only [List.zipWith_cons_cons, List.map_cons, List.cons.injEq]
      exact ⟨by trivial, ih cs2 (by simpa using hlen)⟩

/-- C1 is false as stated: the long-format path neither sorts nor
deduplicates dates and keeps negative cases values; the concrete table `tL`
(rows date-descending, cases -5 then 3) yields a table violating both the
ordering and the non-negativity invariants. -/
theorem C1_counterexample :
    load_data pdL pnL tL = .ok [⟨2, -5, 0, 0⟩, ⟨1, 3, 0, 0⟩] ∧
      ¬ TableInvariant [⟨2, -5, 0, 0⟩, ⟨1, 3, 0, 0⟩] := by
  constructor
  · rfl
  · rintro ⟨-, hnn⟩
    have h5 := (hnn ⟨2, -5, 0, 0⟩ (by simp)).1
    norm_num at h5

/-- C1 (amended): on the wide-format path, provided every numeric cell
coerces to a non-negative value (coercion failures count as zero), the
canonical table satisfies the data-model invariants: dates unique and
sorted strictly ascending, and cases, deaths, recovered non-negative
integers.  The long-format path does not sort, deduplicate, or clip. -/
theorem C1_wide_invariant (pdato : String → Option ℤ)
    (pnum : String → Option ℚ) (t : RawTable) (out : List CRecord)
    (hw : widePathCond t) (hnn : ∀ v, 0 ≤ (pnum v).getD 0)
    (hok : load_data pdato pnum t = .ok out) : TableInvariant out := by
  have hout := load_data_wide_ok pdato pnum t out hw hok
  subst hout
  constructor
  · have hlen : (decumulate ((wideGroups pdato pnum t).map Prod.snd)).length
        = (wideGroups pdato pnum t).length := by
      rw [decumulate_length, List.length_map]
    have hdates : (wideTable pdato pnum t).map (·.date)
        = (wideGroups pdato pnum t).map Prod.fst := by
      simp only [wideTable]
      exact map_date_zipWith _ _ hlen
    have hfst : (wideGroups pdato pnum t).map Prod.fst =
        sortedDedup ((meltedPairs pdato pnum t).filterMap Prod.fst) := by
      unfold wideGroups
      rw [List.map_map]
      simp [Function.comp_def]
    have hchain : List.Chain' (· < ·) ((wideTable pdato pnum t).map (·.date)) := by
      rw [hdates, hfst]
      exact chain'_sortedDedup _
    rw [List.chain'_map] at hchain
    exact hchain
  · intro rec hrec
    simp only [wideTable] at hrec
    obtain ⟨p, c, rfl, _, hc⟩ := mem_zipWith _ _ _ rec hrec
    refine ⟨?_, le_refl 0, le_refl 0⟩
    exact truncQ_nonneg c (decumulate_nonneg _
      (wideGroups_snd_nonneg pdato pnum t hnn) c hc)

/-- Witness for C1 at the concrete wide table `tW` with the non-negative
numeric oracle `pnW`. -/
theorem C1_wide_invariant_witness :
    widePathCond tW ∧ (∀ v, 0 ≤ (pnW v).getD 0) ∧
      load_data pdW pnW tW = .ok [⟨1, 1, 0, 0⟩, ⟨2, 99, 0, 0⟩] ∧
      TableInvariant [⟨1, 1, 0, 0⟩, ⟨2, 99, 0, 0⟩] := by
  have h1 : widePathCond tW := by decide
  have h2 : ∀ v, 0 ≤ (pnW v).getD 0 := by
    intro v
    unfold pnW
    split
    · norm_num
    · split
      · norm_num
      · split <;> norm_num
  have h3 : load_data pdW pnW tW = .ok [⟨1, 1, 0, 0⟩, ⟨2, 99, 0, 0⟩] := by
    simp +decide only [load_data, widePathCond, wideTable, wideGroups,
      meltedPairs, colValues, datePatternCols, isDatePatternCol, strContains,
      strHasDigit, getCell, tW, pdW, pnW, pyLower,
      List.map, List.filter, List.filterMap, List.flatMap, List.zip,
      List.zipWith, List.find?, sortedDedup, List.foldr, sortedInsert,
      decumulate, decumCond, diffsOf, truncQ]
    norm_num
  have h4 := C1_wide_invariant pdW pnW tW _ h1 h2 h3
  exact ⟨h1, h2, h3, h4⟩

/-- C6: a long-format table lacking `date` or `cases` after lower-casing and
stripping the column names makes `load_data` fail with an error naming
exactly the missing required columns. -/
theorem C6_long_missing (pdato : String → Option ℤ)
    (pnum : String → Option ℚ) (t : RawTable) (hnw : ¬ widePathCond t)
    (hmiss : (["date", "cases"].filter fun c => ¬ c ∈ normHeader t) ≠ []) :
    load_data pdato pnum t =
      .error (.missingColumns
        (["date", "cases"].filter fun c => ¬ c ∈ normHeader t)) := by
  simp only [load_data, if_neg hnw]
  rw [if_pos hmiss]

/-- Witness for C6 at the concrete table `tMissing` (single column `foo`):
both `date` and `cases` are reported missing. -/
theorem C6_long_missing_witness :
    ¬ widePathCond tMissing ∧
      (["date", "cases"].filter fun c => ¬ c ∈ normHeader tMissing) ≠ [] ∧
      load_data pdL pnL tMissing =
        .error (.missingColumns
          (["date", "cases"].filter fun c => ¬ c ∈ normHeader tMissing)) :=
  ⟨by decide, by decide, C6_long_missing pdL pnL tMissing (by decide) (by decide)⟩

/-! ### Claims C2, C3 — the forecaster -/

theorem predict_cases_eq (df : List CRecord) (days : ℕ) (s : ℕ → ℚ)
    (h7 : 7 ≤ df.length) :
    predict_cases df days s = some ((List.range days).map fun (i : ℕ) =>
      { date := listMaxD (df.map (·.date)) + 1 + (i : ℤ)
        predicted_cases :=
          truncQ (baselineSpec df * (1 + (5 / 100) * s i)) }) := by
  unfold predict_cases baselineSpec
  rw [if_neg (not_lt.mpr h7)]

/-- C2: `predict_cases` returns the unavailable sentinel `none` for tables
with fewer than 7 records; for a CanonicalTable (non-negative cases, per the
data model) with at least 7 records and any horizon it returns exactly
`days` prediction records, each non-negative and dated strictly after the
maximum historical date. -/
theorem C2_predict (df : List CRecord) (days : ℕ) (s : ℕ → ℚ)
    (hs : SinLike s) (hnn : ∀ r ∈ df, 0 ≤ r.cases) :
    (df.length < 7 → predict_cases df days s = none) ∧
      (7 ≤ df.length → ∃ l, predict_cases df days s = some l ∧
        l.length = days ∧ ∀ p ∈ l, 0 ≤ p.predicted_cases ∧
          listMaxD (df.map (·.date)) < p.date) := by
  constructor
  · intro h
    unfold predict_cases
    rw [if_pos h]
  · intro h7
    refine ⟨_, predict_cases_eq df days s h7, by simp, ?_⟩
    intro p hp
    simp only [List.mem_map, List.mem_range] at hp
    obtain ⟨i, hi, rfl⟩ := hp
    constructor
    · apply truncQ_nonneg
      have havg : 0 ≤ baselineSpec df := by
        apply div_nonneg _ (by norm_num)
        apply List.sum_nonneg
        intro x hx
        obtain ⟨r, hr, rfl⟩ := List.mem_map.mp hx
        have hmem : r ∈ df := (List.drop_sublist _ _).mem hr
        exact_mod_cast hnn r hmem
      have hfac : 0 ≤ 1 + (5 / 100 : ℚ) * s i := by
        have hb := (abs_le.mp (hs.2 i)).1
        nlinarith
      exact mul_nonneg havg hfac
    · have hi0 : (0 : ℤ) ≤ (i : ℤ) := Int.natCast_nonneg i
      show listMaxD (df.map (·.date)) <
        listMaxD (df.map (·.date)) + 1 + (i : ℤ)
      omega

/-- Witness for C2 at the concrete 7-row table `dfC`, horizon 3, with the
zero sine stand-in. -/
theorem C2_predict_witness :
    SinLike sZero ∧ (∀ r ∈ dfC, 0 ≤ r.cases) ∧
      (dfC.length < 7 → predict_cases dfC 3 sZero = none) ∧
      (7 ≤ dfC.length → ∃ l, predict_cases dfC 3 sZero = some l ∧
        l.length = 3 ∧ ∀ p ∈ l, 0 ≤ p.predicted_cases ∧
          listMaxD (dfC.map (·.date)) < p.date) := by
  have hs : SinLike sZero := ⟨rfl, fun i => by norm_num [sZero]⟩
  have hnn : ∀ r ∈ dfC, 0 ≤ r.cases := by decide
  exact ⟨hs, hnn, (C2_predict dfC 3 sZero hs hnn).1,
    (C2_predict dfC 3 sZero hs hnn).2⟩

/-- C3 is false as stated: the code truncates the oscillated baseline with
Python `int()` instead of rounding it.  At the 7-row table `dfC` (baseline
11/7) the first prediction is `int(11/7) = 1` while the claimed
`round(11/7) = 2`. -/
theorem C3_counterexample :
    ¬ (∀ (df : List CRecord) (days : ℕ) (s : ℕ → ℚ), SinLike s →
        7 ≤ df.length → ∀ l, predict_cases df days s = some l →
          ∀ i, i < days → l[i]?.map (·.predicted_cases) =
            some (predictedSpec df s i)) := by
  intro h
  have hs : SinLike sZero := ⟨rfl, fun i => by norm_num [sZero]⟩
  have h7 : (7 : ℕ) ≤ dfC.length := by decide
  have hpred : predict_cases dfC 1 sZero = some [⟨7, 1⟩] := by
    rw [predict_cases_eq dfC 1 sZero h7]
    have hmax : listMaxD (dfC.map (·.date)) = 6 := by decide
    have hbase : baselineSpec dfC = 11 / 7 := by
      norm_num [baselineSpec, dfC]
    simp only [List.range_succ, List.range_zero, List.nil_append,
      List.map_cons, List.map_nil, hmax, hbase, sZero]
    norm_num [truncQ]
  have hinst := h dfC 1 sZero hs h7 [⟨7, 1⟩] hpred 0 (by norm_num)
  have hspec : predictedSpec dfC sZero 0 = 2 := by
    norm_num [predictedSpec, baselineSpec, dfC, sZero, round_eq]
  rw [hspec] at hinst
  simp at hinst

/-- C3 (amended): for every table with at least 7 records, the i-th
prediction equals the Python-`int()` truncation toward zero of
`baseline * (1 + 0.05 * sin(i * 0.1))` with baseline the mean of the last 7
cases values, emitted on consecutive days starting the day after the
maximum historical date. -/
theorem C3_predict_formula (df : List CRecord) (days : ℕ) (s : ℕ → ℚ)
    (h7 : 7 ≤ df.length) :
    ∃ l, predict_cases df days s = some l ∧ l.length = days ∧
      ∀ i, i < days → l[i]? =
        some ⟨listMaxD (df.map (·.date)) + 1 + (i : ℤ),
          truncQ (baselineSpec df * (1 + (5 / 100) * s i))⟩ := by
  refine ⟨_, predict_cases_eq df days s h7, by simp, ?_⟩
  intro i hi
  rw [List.getElem?_map, List.getElem?_range hi]
  rfl

/-- Witness for C3 (amended) at the concrete table `dfC`, horizon 2. -/
theorem C3_predict_formula_witness :
    (7 : ℕ) ≤ dfC.length ∧
      ∃ l, predict_cases dfC 2 sZero = some l ∧ l.length = 2 ∧
        ∀ i, i < 2 → l[i]? =
          some ⟨listMaxD (dfC.map (·.date)) + 1 + (i : ℤ),
            truncQ (baselineSpec dfC * (1 + (5 / 100) * sZero i))⟩ :=
  ⟨by decide, C3_predict_formula dfC 2 sZero (by decide)⟩

/-! ### Claim C9 — aggregator totals -/

theorem sum_filter_split {R : Type} (q : R → Bool) (f : R → ℤ) :
    ∀ rows : List R, ((rows.filter q).map f).sum +
      ((rows.filter fun r => !(q r)).map f).sum = (rows.map f).sum := by
  intro rows
  induction rows with
  | nil => simp
  | cons r rs ih =>
    cases hq : q r with
    | true =>
      simp [List.filter_cons, hq, add_assoc, ih]
    | false =>
      simp [List.filter_cons, hq]
      linarith [ih]

theorem filter_of_ne {K R : Type} [DecidableEq K] (key : R → K) (k k2 : K)
    (hne : k2 ≠ k) (rows : List R) :
    (rows.filter fun r => key r = k2) =
      ((rows.filter fun r => !(decide (key r = k))).filter
        fun r => key r = k2) := by
  rw [List.filter_filter]
  apply List.filter_congr
  intro r _
  by_cases h2 : key r = k2
  · have hk : ¬ key r = k := fun h => hne (h2 ▸ h ▸ rfl)
    simp [h2, hk, hne]
  · simp [h2]

theorem sum_groups_eq {K R : Type} [DecidableEq K] (key : R → K)
    (f : R → ℤ) : ∀ (ks : List K) (rows : List R), ks.Nodup →
      (∀ r ∈ rows, key r ∈ ks) →
      (ks.map fun k => ((rows.filter fun r => key r = k).map f).sum).sum =
        (rows.map f).sum := by
  intro ks
  induction ks with
  | nil =>
    intro rows _ hcov
    cases rows with
    | nil => rfl
    | cons r rs => exact absurd (hcov r (by simp)) (by simp)
  | cons k ks ih =>
    intro rows hnd hcov
    rw [List.map_cons, List.sum_cons, List.nodup_cons] at *
    obtain ⟨hk, hnd⟩ := hnd
    have hrest : (ks.map fun k2 =>
        ((rows.filter fun r => key r = k2).map f).sum).sum =
        (ks.map fun k2 => (((rows.filter fun r => !(decide (key r = k))).filter
          fun r => key r = k2).map f).sum).sum := by
      apply congrArg
      apply List.map_congr_left
      intro k2 hk2
      rw [← filter_of_ne key k k2 (fun h => hk (h ▸ hk2)) rows]
    rw [hrest, ih _ hnd ?_]
    · exact sum_filter_split (fun r => decide (key r = k)) f rows
    · intro r hr
      rw [List.mem_filter] at hr
      have hmem := hcov r hr.1
      rw [List.mem_cons] at hmem
      rcases hmem with h | h
      · exfalso
        have := hr.2
        simp [h] at this
      · exact h

/-- C9: for every CanonicalTable and any calendar projections, the yearly
rollup's total-cases values sum to the table's cases sum, and so do the
quarterly rollup's. -/
theorem C9_totals (yearOf quarterOf : ℤ → ℤ) (df : List CRecord) :
    ((year_stats yearOf df).map (·.total)).sum = (df.map (·.cases)).sum ∧
      ((quarter_stats yearOf quarterOf df).map (·.total)).sum =
        (df.map (·.cases)).sum := by
  constructor
  · unfold year_stats groupAgg
    rw [List.map_map]
    simp only [Function.comp_def]
    apply sum_groups_eq (fun r => yearOf r.date) (·.cases) _ df
      (nodup_sortedDedup _)
    intro r hr
    rw [mem_sortedDedup]
    exact List.mem_map_of_mem _ hr
  · unfold quarter_stats groupAgg
    rw [List.map_map]
    simp only [Function.comp_def]
    apply sum_groups_eq
      (fun r => year_quarter_label yearOf quarterOf r.date) (·.cases) _ df
      (nodup_sortedDedup _)
    intro r hr
    rw [mem_sortedDedup]
    exact List.mem_map_of_mem _ hr

/-! ### Claims C7, C8 — the live fetcher and its fallback -/

/-- C7: `create_sample_data` never fails outward — for every outcome of the
request (success, timeout, HTTP error, decode failure) and every random
draw it returns a table: the live-derived one exactly when the whole `try:`
block runs through, the synthetic fallback otherwise. -/
theorem C7_never_fails (pdato : String → Option ℤ) (outcome : FetchOutcome)
    (r nd nr : ℕ → ℤ) (s : ℕ → ℚ) :
    (∃ data t, outcome = .success data ∧ tryLive pdato data = .ok t ∧
      create_sample_data pdato outcome r nd nr s = t) ∨
      create_sample_data pdato outcome r nd nr s =
        create_fallback r nd nr s := by
  cases outcome with
  | failure => right; rfl
  | success data =>
    cases h : tryLive pdato data with
    | ok t =>
      left
      exact ⟨data, t, rfl, h, by simp [create_sample_data, h]⟩
    | error e =>
      right
      simp [create_sample_data, h]

theorem le_truncQ_of_le (n : ℤ) (q : ℚ) (hn : n ≤ 0) (h : (n : ℚ) ≤ q) :
    n ≤ truncQ q := by
  unfold truncQ
  split
  · next h0 => exact le_trans hn (Int.le_floor.mpr (by exact_mod_cast h0))
  · have h2 : (n : ℚ) ≤ (⌈q⌉ : ℚ) := le_trans h (Int.le_ceil q)
    exact_mod_cast h2

/-- C8 is false as stated: the sinusoidal component (amplitude 200) can push
a low uniform draw (100) below zero.  With every draw at 100 and the sine
value -0.9999 at index 47 (as the float `np.sin(4.7) ≈ -0.99992`), the
fallback's record 47 has cases `int(100 - 199.98) = -99 < 0`. -/
theorem C8_counterexample :
    FallbackDraws rLow nZero nZero ∧ SinLike sDip ∧
      ∃ rec ∈ create_sample_data (fun _ => none) .failure rLow nZero nZero
        sDip, rec.cases < 0 := by
  refine ⟨?_, ?_, ?_⟩
  · refine ⟨fun i => ?_, fun i => ?_, fun i => ?_⟩ <;> norm_num [rLow, nZero]
  · constructor
    · rfl
    · intro i
      unfold sDip
      split <;> norm_num [abs_le]
  · show ∃ rec ∈ create_fallback rLow nZero nZero sDip, rec.cases < 0
    refine ⟨_, List.mem_map.mpr ⟨47, List.mem_range.mpr (by decide), rfl⟩, ?_⟩
    show truncQ ((rLow 47 : ℚ) + sDip 47 * 200) < 0
    norm_num [rLow, sDip, truncQ]
    have hc : ⌈(-(4999 / 50) : ℚ)⌉ ≤ (-99 : ℤ) :=
      Int.ceil_le.mpr (by norm_num)
    exact lt_of_le_of_lt hc (by norm_num)

/-- C8 (amended): whenever the live fetch fails, the fallback table has
exactly one record per day of the fixed range 2020-01-01 through 2023-12-31
(1461 consecutive days); every cases value is at least -100, and a day's
cases value is non-negative whenever that day's uniform draw is at least
200 (a draw below 200 can go negative under a deep sine trough). -/
theorem C8_fallback (pdato : String → Option ℤ) (r nd nr : ℕ → ℤ)
    (s : ℕ → ℚ) (hd : FallbackDraws r nd nr) (hs : SinLike s) :
    (create_sample_data pdato .failure r nd nr s).length = fallbackLen ∧
      fallbackLen = 1461 ∧
      ∀ i, i < fallbackLen → ∃ rec,
        (create_sample_data pdato .failure r nd nr s)[i]? = some rec ∧
          rec.date = daysFromCivil 2020 1 1 + (i : ℤ) ∧
          -100 ≤ rec.cases ∧ (200 ≤ r i → 0 ≤ rec.cases) := by
  refine ⟨by simp [create_sample_data, create_fallback], by rfl, ?_⟩
  intro i hi
  refine ⟨{ date := daysFromCivil 2020 1 1 + (i : ℤ)
            cases := truncQ ((r i : ℚ) + s i * 200)
            deaths := truncQ (((r i : ℚ) + s i * 200) * (2 / 100) + nd i)
            recovered :=
              truncQ (((r i : ℚ) + s i * 200) * (80 / 100) + nr i) },
    ?_, rfl, ?_, ?_⟩
  · show (create_fallback r nd nr s)[i]? = _
    simp only [create_fallback]
    rw [List.getElem?_map, List.getElem?_range hi]
    rfl
  · show -100 ≤ truncQ ((r i : ℚ) + s i * 200)
    apply le_truncQ_of_le _ _ (by norm_num)
    have h1 : (100 : ℚ) ≤ (r i : ℚ) := by exact_mod_cast (hd.1 i).1
    have h2 : (-1 : ℚ) ≤ s i := (abs_le.mp (hs.2 i)).1
    push_cast
    nlinarith
  · intro h200
    show (0 : ℤ) ≤ truncQ ((r i : ℚ) + s i * 200)
    apply truncQ_nonneg
    have h1 : (200 : ℚ) ≤ (r i : ℚ) := by exact_mod_cast h200
    have h2 : (-1 : ℚ) ≤ s i := (abs_le.mp (hs.2 i)).1
    nlinarith

/-- Witness for C8 (amended) with every uniform draw at 100, zero noise and
the zero sine stand-in. -/
theorem C8_fallback_witness :
    FallbackDraws rLow nZero nZero ∧ SinLike sZero ∧
      ((create_sample_data (fun _ => none) .failure rLow nZero nZero
          sZero).length = fallbackLen ∧
        fallbackLen = 1461 ∧
        ∀ i, i < fallbackLen → ∃ rec,
          (create_sample_data (fun _ => none) .failure rLow nZero nZero
            sZero)[i]? = some rec ∧
            rec.date = daysFromCivil 2020 1 1 + (i : ℤ) ∧
            -100 ≤ rec.cases ∧ (200 ≤ rLow i → 0 ≤ rec.cases)) := by
  have hd : FallbackDraws rLow nZero nZero := by
    refine ⟨fun i => ?_, fun i => ?_, fun i => ?_⟩ <;> norm_num [rLow, nZero]
  have hs : SinLike sZero := ⟨rfl, fun i => by norm_num [sZero]⟩
  exact ⟨hd, hs, C8_fallback (fun _ => none) rLow nZero nZero sZero hd hs⟩
